import Mathlib

/- Verification development for the idempotent-proxy repository.

   Embedded source files:
   - src/idempotent-proxy-types/src/auth.rs : token codec, Ed25519 and
     ECDSA/secp256k1 sign/verify over the CBOR encoding of
     (expire_at, agent), with a 10 second permitted clock drift.
   - src/idempotent-proxy-canister/src/tasks.rs : the periodic proxy-token
     refresh pass over the shared agent roster.

   Modelling conventions:
   - Byte strings are lists of naturals (each element a byte value).
   - u64 arithmetic uses explicit reduction mod 2^64 where the Rust code
     performs u64 addition (release-profile wrapping semantics).
   - The external cryptographic primitives (ed25519_dalek, k256, sha3) are
     abstract function parameters; the repository code under verification is
     everything around them: CBOR framing, expiry checking, signature-bytes
     parsing, key-rotation iteration, memoized refresh.
   - The clock (unix_ms() / 1000, ic_cdk::api::time() / SECONDS) is an
     explicit parameter, one fixed value per call, matching the
     single-threaded execution model. -/

def U64 : Nat := 2 ^ 64

/-- PERMITTED_DRIFT from auth.rs, in seconds. -/
def PERMITTED_DRIFT : Nat := 10

/-- Big-endian base-256 digits of n, exactly k bytes (low digits last). -/
def beBytes : Nat → Nat → List Nat
  | 0, _ => []
  | k + 1, n => beBytes k (n / 256) ++ [n % 256]

/-- Split off exactly k leading elements, failing on short input. -/
def takeExact : Nat → List Nat → Option (List Nat × List Nat)
  | 0, l => some ([], l)
  | _ + 1, [] => none
  | k + 1, b :: l => (takeExact k l).map fun p => (b :: p.1, p.2)

/-- Read a k-byte big-endian unsigned integer (bytes must be in range). -/
def readBE (k : Nat) (l : List Nat) : Option (Nat × List Nat) :=
  (takeExact k l).bind fun p =>
    if p.1.all (fun b => decide (b < 256)) then
      some (p.1.foldl (fun acc b => acc * 256 + b) 0, p.2)
    else none

/-- CBOR head for major type and argument, in the minimal-length (canonical)
    form emitted by ciborium's serializer. -/
def cborHead (major n : Nat) : List Nat :=
  if n < 24 then [major * 32 + n]
  else if n < 2 ^ 8 then (major * 32 + 24) :: beBytes 1 n
  else if n < 2 ^ 16 then (major * 32 + 25) :: beBytes 2 n
  else if n < 2 ^ 32 then (major * 32 + 26) :: beBytes 4 n
  else (major * 32 + 27) :: beBytes 8 n

/-- Parse a CBOR head into (major type, argument, rest). Indefinite-length
    and reserved additional-information values (28-31) are rejected, as are
    non-byte elements. -/
def readHead : List Nat → Option (Nat × Nat × List Nat)
  | [] => none
  | b :: l =>
    if b < 256 then
      if b % 32 < 24 then some (b / 32, b % 32, l)
      else if b % 32 = 24 then (readBE 1 l).map fun p => (b / 32, p.1, p.2)
      else if b % 32 = 25 then (readBE 2 l).map fun p => (b / 32, p.1, p.2)
      else if b % 32 = 26 then (readBE 4 l).map fun p => (b / 32, p.1, p.2)
      else if b % 32 = 27 then (readBE 8 l).map fun p => (b / 32, p.1, p.2)
      else none
    else none

/-- A UTF-8 continuation byte 10xxxxxx. -/
def utf8Cont (b : Nat) : Bool := decide (128 ≤ b) && decide (b < 192)

/-- Extra first-continuation constraint for 3-byte sequences
    (rejecting overlong forms and surrogates). -/
def utf8First3 (b c1 : Nat) : Bool :=
  if b = 224 then decide (160 ≤ c1) else if b = 237 then decide (c1 < 160) else true

/-- Extra first-continuation constraint for 4-byte sequences
    (rejecting overlong forms and values above U+10FFFF). -/
def utf8First4 (b c1 : Nat) : Bool :=
  if b = 240 then decide (144 ≤ c1) else if b = 244 then decide (c1 < 144) else true

/-- UTF-8 validity (RFC 3629), as enforced when ciborium deserializes a CBOR
    text string into a Rust String. -/
def utf8Valid : List Nat → Bool
  | [] => true
  | b :: r =>
    if b < 128 then utf8Valid r
    else if b < 194 then false
    else if b < 224 then
      match r with
      | c1 :: r2 => utf8Cont c1 && utf8Valid r2
      | [] => false
    else if b < 240 then
      match r with
      | c1 :: c2 :: r3 => utf8Cont c1 && utf8Cont c2 && utf8First3 b c1 && utf8Valid r3
      | _ => false
    else if b < 245 then
      match r with
      | c1 :: c2 :: c3 :: r4 =>
        utf8Cont c1 && utf8Cont c2 && utf8Cont c3 && utf8First4 b c1 && utf8Valid r4
      | _ => false
    else false

/-- Token from auth.rs: Token(pub u64, pub String, pub ByteBuf). Field
    expire_at models .0 (seconds since epoch), agent models .1 (the UTF-8
    bytes of the subject string), sig models .2. -/
structure Token where
  expire_at : Nat
  agent : List Nat
  sig : List Nat
deriving DecidableEq

/-- CBOR bytes of the signable pair, as into_writer(&(expire_at, &agent)):
    a definite 2-array [uint, text]. -/
def encode2 (e : Nat) (sub : List Nat) : List Nat :=
  cborHead 4 2 ++ (cborHead 0 e ++ (cborHead 3 sub.length ++ sub))

/-- CBOR bytes of the full token, as
    into_writer(&(expire_at, agent, ByteBuf::from(sig))):
    a definite 3-array [uint, text, bytes]. -/
def encodeToken (e : Nat) (sub sig : List Nat) : List Nat :=
  cborHead 4 3 ++
    (cborHead 0 e ++ (cborHead 3 sub.length ++ (sub ++ (cborHead 2 sig.length ++ sig))))

def readUInt (l : List Nat) : Option (Nat × List Nat) :=
  (readHead l).bind fun h => if h.1 = 0 then some h.2 else none

def readText (l : List Nat) : Option (List Nat × List Nat) :=
  (readHead l).bind fun h =>
    if h.1 = 3 then
      (takeExact h.2.1 h.2.2).bind fun p => if utf8Valid p.1 then some p else none
    else none

def readBytes (l : List Nat) : Option (List Nat × List Nat) :=
  (readHead l).bind fun h => if h.1 = 2 then takeExact h.2.1 h.2.2 else none

/-- from_reader::<Token> on raw bytes: a definite 3-array
    [uint, text, bytes]; any structural mismatch is a decoding failure. -/
def decodeToken (data : List Nat) : Option Token :=
  (readHead data).bind fun h =>
    if h.1 = 4 ∧ h.2.1 = 3 then
      (readUInt h.2.2).bind fun p1 =>
        (readText p1.2).bind fun p2 =>
          (readBytes p2.2).map fun p3 => ⟨p1.1, p2.1, p3.1⟩
    else none

/- ---------- codec lemmas ---------- -/

theorem takeExact_append (xs ys : List Nat) :
    takeExact xs.length (xs ++ ys) = some (xs, ys) := by
  induction xs with
  | nil => rfl
  | cons b l ih => simp [takeExact, ih]

theorem beBytes_length (k n : Nat) : (beBytes k n).length = k := by
  induction k generalizing n with
  | zero => rfl
  | succ k ih => simp [beBytes, ih]

theorem beBytes_all_lt (k n : Nat) : ∀ b ∈ beBytes k n, b < 256 := by
  induction k generalizing n with
  | zero => intro b hb; simp [beBytes] at hb
  | succ k ih =>
    intro b hb
    simp only [beBytes, List.mem_append, List.mem_singleton] at hb
    rcases hb with hb | hb
    · exact ih _ _ hb
    · subst hb; exact Nat.mod_lt _ (by omega)

theorem beBytes_foldl (k : Nat) :
    ∀ (n acc : Nat), n < 256 ^ k →
      (beBytes k n).foldl (fun acc b => acc * 256 + b) acc = acc * 256 ^ k + n := by
  induction k with
  | zero => intro n acc hn; simp at hn; simp [beBytes, hn]
  | succ k ih =>
    intro n acc hn
    have hdiv : n / 256 < 256 ^ k := by
      rw [Nat.div_lt_iff_lt_mul (by omega)]
      calc n < 256 ^ (k + 1) := hn
        _ = 256 ^ k * 256 := by rw [Nat.pow_succ]
    simp only [beBytes, List.foldl_append, ih (n / 256) acc hdiv, List.foldl_cons,
      List.foldl_nil]
    have : acc * 256 ^ k * 256 = acc * 256 ^ (k + 1) := by ring
    omega

theorem readBE_beBytes (k n : Nat) (rest : List Nat) (hn : n < 256 ^ k) :
    readBE k (beBytes k n ++ rest) = some (n, rest) := by
  have ht : takeExact k (beBytes k n ++ rest) = some (beBytes k n, rest) := by
    have := takeExact_append (beBytes k n) rest
    rwa [beBytes_length] at this
  have hall : (beBytes k n).all (fun b => decide (b < 256)) = true := by
    rw [List.all_eq_true]
    intro b hb
    simpa using beBytes_all_lt k n b hb
  simp [readBE, ht, hall, beBytes_foldl k n 0 hn]
  exact beBytes_all_lt k n

theorem readHead_cborHead (m n : Nat) (rest : List Nat)
    (hm : m < 8) (hn : n < U64) :
    readHead (cborHead m n ++ rest) = some (m, n, rest) := by
  have hU : U64 = 256 ^ 8 := by norm_num [U64]
  by_cases h0 : n < 24
  · have hb : m * 32 + n < 256 := by omega
    have h1 : (m * 32 + n) % 32 = n := by omega
    have h2 : (m * 32 + n) / 32 = m := by omega
    simp [cborHead, h0, readHead, hb, h1, h2]
  · by_cases h8 : n < 2 ^ 8
    · have hb : m * 32 + 24 < 256 := by omega
      have h1 : (m * 32 + 24) % 32 = 24 := by omega
      have h2 : (m * 32 + 24) / 32 = m := by omega
      have hr := readBE_beBytes 1 n rest (by norm_num at h8 ⊢; omega)
      simp only [cborHead, h0, if_false, h8, if_true]
      simp [readHead, hb, h1, h2, hr]
    · by_cases h16 : n < 2 ^ 16
      · have hb : m * 32 + 25 < 256 := by omega
        have h1 : (m * 32 + 25) % 32 = 25 := by omega
        have h2 : (m * 32 + 25) / 32 = m := by omega
        have hr := readBE_beBytes 2 n rest (by norm_num at h16 ⊢; omega)
        simp only [cborHead, h0, if_false, h8, h16, if_true]
        simp [readHead, hb, h1, h2, hr]
      · by_cases h32 : n < 2 ^ 32
        · have hb : m * 32 + 26 < 256 := by omega
          have h1 : (m * 32 + 26) % 32 = 26 := by omega
          have h2 : (m * 32 + 26) / 32 = m := by omega
          have hr := readBE_beBytes 4 n rest (by norm_num at h32 ⊢; omega)
          simp only [cborHead, h0, if_false, h8, h16, h32, if_true]
          simp [readHead, hb, h1, h2, hr]
        · have hb : m * 32 + 27 < 256 := by omega
          have h1 : (m * 32 + 27) % 32 = 27 := by omega
          have h2 : (m * 32 + 27) / 32 = m := by omega
          have hr := readBE_beBytes 8 n rest (by rw [← hU]; exact hn)
          simp only [cborHead, h0, if_false, h8, h16, h32]
          simp [readHead, hb, h1, h2, hr]

theorem decodeToken_encodeToken (e : Nat) (sub sig : List Nat)
    (he : e < U64) (hsub : utf8Valid sub = true)
    (hsublen : sub.length < U64) (hsiglen : sig.length < U64) :
    decodeToken (encodeToken e sub sig) = some ⟨e, sub, sig⟩ := by
  have h0 := readHead_cborHead 4 3
    (cborHead 0 e ++ (cborHead 3 sub.length ++ (sub ++ (cborHead 2 sig.length ++ sig))))
    (by omega) (by norm_num [U64])
  have h1 := readHead_cborHead 0 e
    (cborHead 3 sub.length ++ (sub ++ (cborHead 2 sig.length ++ sig)))
    (by omega) he
  have h2 := readHead_cborHead 3 sub.length
    (sub ++ (cborHead 2 sig.length ++ sig)) (by omega) hsublen
  have h3 := readHead_cborHead 2 sig.length sig (by omega) hsiglen
  have ht2 := takeExact_append sub (cborHead 2 sig.length ++ sig)
  have ht3 := takeExact_append sig ([] : List Nat)
  simp [encodeToken, decodeToken, h0, readUInt, h1, readText, h2, ht2, hsub,
    readBytes, h3, List.append_nil] at ht3 ⊢
  simp [ht3]

/- ---------- dual-scheme signer and verifier (auth.rs) ---------- -/

/-- Abstract interface of the external ed25519_dalek primitives: sign over a
    message, strict verification of a 64-byte signature. Keys are opaque
    identifiers. -/
structure Ed25519Impl where
  sign : Nat → List Nat → List Nat
  verify_strict : Nat → List Nat → List Nat → Bool

/-- Abstract interface of the external k256 ECDSA/secp256k1 primitives:
    prehash signing of a digest, signature-bytes validation
    (Signature::try_from), prehash verification. -/
structure EcdsaImpl where
  sign_prehash : Nat → List Nat → List Nat
  parse_sig : List Nat → Bool
  verify_prehash : Nat → List Nat → List Nat → Bool

/-- ed25519_sign from auth.rs: CBOR-encode (expire_at, agent), sign those
    bytes directly, then CBOR-encode the full (expire_at, agent, sig). -/
def ed25519_sign (impl : Ed25519Impl) (key : Nat) (expire_at : Nat)
    (agent : List Nat) : List Nat :=
  let buf := encode2 expire_at agent
  let sig := impl.sign key buf
  encodeToken expire_at agent sig

/-- The for-loop over verification keys: succeed on the first key whose
    check passes. -/
def tryKeys (check : Nat → Bool) : List Nat → Bool
  | [] => false
  | k :: ks => check k || tryKeys check ks

/-- ed25519_verify from auth.rs: decode, check expiry with drift (u64
    wrapping addition), parse the signature (exactly 64 bytes), re-encode
    the signable pair, try each key in order with verify_strict. -/
def ed25519_verify (impl : Ed25519Impl) (keys : List Nat) (now : Nat)
    (data : List Nat) : Except String Token :=
  match decodeToken data with
  | none => Except.error ("failed to decode CBOR data")
  | some token =>
    if (token.expire_at + PERMITTED_DRIFT) % U64 < now then
      Except.error ("token expired")
    else if token.sig.length = 64 then
      if tryKeys (fun k => impl.verify_strict k (encode2 token.expire_at token.agent) token.sig) keys
      then Except.ok token
      else Except.error ("failed to verify Ed25519 signature")
    else Except.error ("failed to parse Ed25519 signature")

/-- The digest the ECDSA verifier checks: sha3_256 of the re-encoded
    (expire_at, agent) sub-payload of a token (auth.rs lines 71-74). -/
def tokenDigest (sha3 : List Nat → List Nat) (t : Token) : List Nat :=
  sha3 (encode2 t.expire_at t.agent)

/-- ecdsa_sign from auth.rs: CBOR-encode (expire_at, agent), hash with
    sha3_256, submit only the digest to the prehash signer, then CBOR-encode
    the full token. -/
def ecdsa_sign (impl : EcdsaImpl) (sha3 : List Nat → List Nat) (key : Nat)
    (expire_at : Nat) (agent : List Nat) : List Nat :=
  let buf := encode2 expire_at agent
  let digest := sha3 buf
  let sig := impl.sign_prehash key digest
  encodeToken expire_at agent sig

/-- ecdsa_verify from auth.rs: decode, check expiry with drift (u64
    wrapping addition), parse the signature bytes, recompute the sha3_256
    digest of the re-encoded pair, try each key in order with
    verify_prehash. -/
def ecdsa_verify (impl : EcdsaImpl) (sha3 : List Nat → List Nat)
    (keys : List Nat) (now : Nat) (data : List Nat) : Except String Token :=
  match decodeToken data with
  | none => Except.error ("failed to decode CBOR data")
  | some token =>
    if (token.expire_at + PERMITTED_DRIFT) % U64 < now then
      Except.error ("token expired")
    else if impl.parse_sig token.sig then
      if tryKeys (fun k => impl.verify_prehash k (tokenDigest sha3 token) token.sig) keys
      then Except.ok token
      else Except.error ("failed to verify ECDSA/Secp256k1 signature")
    else Except.error ("failed to parse Secp256k1 signature")

/- ---------- refresh orchestrator (tasks.rs) ---------- -/

/-- Modelled from the spec: the Agent record of the shared roster
    (src/idempotent-proxy-canister/src/agent.rs is not part of the sources
    given). Spec section 3: a name and an optional most recently issued
    token; tasks.rs reads agent.name and writes agent.proxy_token. -/
structure Agent where
  name : String
  proxy_token : Option String
deriving DecidableEq

/-- Modelled from the spec: the shared canister state touched by the
    refresh pass (store.rs is not part of the sources given). tasks.rs
    reads ecdsa_key_name, proxy_token_refresh_interval and agents, and the
    final with_mut writes only the agents field. -/
structure State where
  ecdsa_key_name : String
  proxy_token_refresh_interval : Nat
  agents : List Agent
deriving DecidableEq

/-- One call to ecdsa::sign_proxy_token (the external chain-key signing
    capability), recorded with its arguments. -/
structure SignCall where
  keyName : String
  expireAt : Nat
  name : String
deriving DecidableEq

/-- Lookup in the per-pass memo (BTreeMap<String, String> in tasks.rs;
    an association list here, with at most one entry per name). -/
def memoLookup (n : String) : List (String × String) → Option String
  | [] => none
  | p :: rest => if p.1 = n then some p.2 else memoLookup n rest

/-- The loop body of update_proxy_token: walk the agents in order; reuse the
    memoized token for an already seen name, otherwise call the signer
    (failure aborts, modelled as none) and memoize. Returns the updated
    agents, the final memo and the list of signing calls made, in order. -/
def processAgents (signer : String → Nat → String → Option String)
    (key : String) (exp : Nat) :
    List Agent → List (String × String) →
    Option (List Agent × List (String × String) × List SignCall)
  | [], memo => some ([], memo, [])
  | a :: rest, memo =>
    match memoLookup a.name memo with
    | some tok =>
      (processAgents signer key exp rest memo).map
        fun r => ({ a with proxy_token := some tok } :: r.1, r.2.1, r.2.2)
    | none =>
      match signer key exp a.name with
      | none => none
      | some tok =>
        (processAgents signer key exp rest ((a.name, tok) :: memo)).map
          fun r => ({ a with proxy_token := some tok } :: r.1, r.2.1,
                    ⟨key, exp, a.name⟩ :: r.2.2)

/-- update_proxy_token from tasks.rs, with the shared state explicit: on an
    empty roster return without touching the state; otherwise process every
    agent (a signing failure traps, modelled as none, and the canister state
    rolls back) and finally write only the agents field. expire time is
    now_s + proxy_token_refresh_interval + 120 in u64 arithmetic. -/
def update_proxy_token (signer : String → Nat → String → Option String)
    (now_s : Nat) (ecdsa_key_name : String)
    (proxy_token_refresh_interval : Nat) (agents : List Agent)
    (st : State) : Option (State × List SignCall) :=
  if agents.isEmpty then some (st, [])
  else
    match processAgents signer ecdsa_key_name
        ((now_s + proxy_token_refresh_interval + 120) % U64) agents [] with
    | none => none
    | some r => some ({ st with agents := r.1 }, r.2.2)

/-- refresh_proxy_token from tasks.rs: read the key name, interval and
    roster from the shared state and run update_proxy_token on them. -/
def refresh_proxy_token (signer : String → Nat → String → Option String)
    (now_s : Nat) (st : State) : Option (State × List SignCall) :=
  update_proxy_token signer now_s st.ecdsa_key_name
    st.proxy_token_refresh_interval st.agents st

/-- Distinct names in first-occurrence order, given the set already seen:
    the order in which the memo acquires entries. -/
def firstOccsAux (seen : List String) : List String → List String
  | [] => []
  | n :: rest =>
    if n ∈ seen then firstOccsAux seen rest
    else n :: firstOccsAux (n :: seen) rest

/-- Distinct names of a list in first-occurrence order. -/
def firstOccs (l : List String) : List String := firstOccsAux [] l

/- ---------- verifier lemmas ---------- -/

theorem tryKeys_eq_true_iff (check : Nat → Bool) (ks : List Nat) :
    tryKeys check ks = true ↔ ∃ k ∈ ks, check k = true := by
  induction ks with
  | nil => simp [tryKeys]
  | cons k ks ih => simp [tryKeys, ih, Bool.or_eq_true]

/- ---------- orchestrator lemmas ---------- -/

theorem processAgents_spec (signer : String → Nat → String → Option String)
    (key : String) (exp : Nat) :
    ∀ (agents : List Agent) (memo : List (String × String)) (seen : List String),
      (∀ n, (memoLookup n memo).isSome = true ↔ n ∈ seen) →
      ∀ res, processAgents signer key exp agents memo = some res →
        res.2.2.map (fun c => c.name) = firstOccsAux seen (agents.map (fun a => a.name))
        ∧ (∀ n v, memoLookup n memo = some v → memoLookup n res.2.1 = some v)
        ∧ (∀ a, a ∈ res.1 → ∃ v, memoLookup a.name res.2.1 = some v ∧ a.proxy_token = some v)
        ∧ res.1.map (fun a => a.name) = agents.map (fun a => a.name)
        ∧ (∀ c, c ∈ res.2.2 → c.keyName = key ∧ c.expireAt = exp
            ∧ c.name ∈ agents.map (fun a => a.name)) := by
  intro agents
  induction agents with
  | nil =>
    intro memo seen hseen res hres
    simp only [processAgents] at hres
    cases hres
    refine ⟨rfl, ?_, ?_, rfl, ?_⟩
    · intro n v h; exact h
    · intro a ha; simp at ha
    · intro c hc; simp at hc
  | cons a rest ih =>
    intro memo seen hseen res hres
    simp only [processAgents] at hres
    cases hmem : memoLookup a.name memo with
    | some tok =>
      simp only [hmem] at hres
      cases hrec : processAgents signer key exp rest memo with
      | none => rw [hrec] at hres; cases hres
      | some res2 =>
        rw [hrec] at hres
        simp only [Option.map_some'] at hres
        obtain ⟨hcalls, hext, htoks, hnames, hcprops⟩ := ih memo seen hseen res2 hrec
        have hin : a.name ∈ seen := by
          rw [← hseen a.name, hmem]; rfl
        cases hres
        refine ⟨?_, ?_, ?_, ?_, ?_⟩
        · simpa [firstOccsAux, hin] using hcalls
        · exact hext
        · intro b hb
          rcases List.mem_cons.mp hb with hb | hb
          · subst hb
            exact ⟨tok, hext a.name tok hmem, rfl⟩
          · exact htoks b hb
        · simpa using hnames
        · intro c hc
          obtain ⟨h1, h2, h3⟩ := hcprops c hc
          exact ⟨h1, h2, by simp [h3]⟩
    | none =>
      simp only [hmem] at hres
      cases hsig : signer key exp a.name with
      | none => simp only [hsig] at hres; cases hres
      | some tok =>
        simp only [hsig] at hres
        cases hrec : processAgents signer key exp rest ((a.name, tok) :: memo) with
        | none => rw [hrec] at hres; cases hres
        | some res2 =>
          rw [hrec] at hres
          simp only [Option.map_some'] at hres
          have hseen2 : ∀ n, (memoLookup n ((a.name, tok) :: memo)).isSome = true
              ↔ n ∈ a.name :: seen := by
            intro n
            simp only [memoLookup, List.mem_cons]
            by_cases h : a.name = n
            · subst h; simp
            · simp only [if_neg h, hseen n]
              constructor
              · intro hn; exact Or.inr hn
              · intro hn
                rcases hn with hn | hn
                · exact absurd hn.symm h
                · exact hn
          obtain ⟨hcalls, hext, htoks, hnames, hcprops⟩ :=
            ih ((a.name, tok) :: memo) (a.name :: seen) hseen2 res2 hrec
          have hnotin : a.name ∉ seen := by
            rw [← hseen a.name, hmem]
            simp
          have hext0 : ∀ n v, memoLookup n memo = some v →
              memoLookup n ((a.name, tok) :: memo) = some v := by
            intro n v hv
            simp only [memoLookup]
            by_cases h : a.name = n
            · subst h; rw [hmem] at hv; cases hv
            · rw [if_neg h]; exact hv
          cases hres
          refine ⟨?_, ?_, ?_, ?_, ?_⟩
          · simpa [firstOccsAux, hnotin] using hcalls
          · intro n v hv; exact hext n v (hext0 n v hv)
          · intro b hb
            rcases List.mem_cons.mp hb with hb | hb
            · subst hb
              refine ⟨tok, ?_, rfl⟩
              exact hext a.name tok (by simp [memoLookup])
            · exact htoks b hb
          · simpa using hnames
          · intro c hc
            rcases List.mem_cons.mp hc with hc | hc
            · subst hc; simp
            · obtain ⟨h1, h2, h3⟩ := hcprops c hc
              exact ⟨h1, h2, by simp [h3]⟩

/- ---------- verify unfolding helpers ---------- -/

theorem ed25519_verify_eq (impl : Ed25519Impl) (keys : List Nat) (now : Nat)
    (data : List Nat) (t : Token) (hdec : decodeToken data = some t) :
    ed25519_verify impl keys now data =
      if (t.expire_at + PERMITTED_DRIFT) % U64 < now then
        Except.error ("token expired")
      else if t.sig.length = 64 then
        if tryKeys (fun k => impl.verify_strict k (encode2 t.expire_at t.agent) t.sig) keys
        then Except.ok t
        else Except.error ("failed to verify Ed25519 signature")
      else Except.error ("failed to parse Ed25519 signature") := by
  simp only [ed25519_verify, hdec]

theorem ecdsa_verify_eq (impl : EcdsaImpl) (sha3 : List Nat → List Nat)
    (keys : List Nat) (now : Nat) (data : List Nat) (t : Token)
    (hdec : decodeToken data = some t) :
    ecdsa_verify impl sha3 keys now data =
      if (t.expire_at + PERMITTED_DRIFT) % U64 < now then
        Except.error ("token expired")
      else if impl.parse_sig t.sig then
        if tryKeys (fun k => impl.verify_prehash k (tokenDigest sha3 t) t.sig) keys
        then Except.ok t
        else Except.error ("failed to verify ECDSA/Secp256k1 signature")
      else Except.error ("failed to parse Secp256k1 signature") := by
  simp only [ecdsa_verify, hdec]

theorem ed25519_verify_ne_expired (impl : Ed25519Impl) (keys : List Nat)
    (now : Nat) (data : List Nat) (t : Token) (hdec : decodeToken data = some t)
    (hc : ¬ (t.expire_at + PERMITTED_DRIFT) % U64 < now) :
    ed25519_verify impl keys now data ≠ Except.error ("token expired") := by
  rw [ed25519_verify_eq impl keys now data t hdec, if_neg hc]
  by_cases h64 : t.sig.length = 64
  · rw [if_pos h64]
    by_cases htk : tryKeys (fun k => impl.verify_strict k (encode2 t.expire_at t.agent) t.sig) keys = true
    · rw [if_pos htk]; intro h; exact Except.noConfusion h
    · rw [if_neg htk]; intro h
      simp only [Except.error.injEq] at h
      exact absurd h (by decide)
  · rw [if_neg h64]; intro h
    simp only [Except.error.injEq] at h
    exact absurd h (by decide)

theorem ecdsa_verify_ne_expired (impl : EcdsaImpl) (sha3 : List Nat → List Nat)
    (keys : List Nat) (now : Nat) (data : List Nat) (t : Token)
    (hdec : decodeToken data = some t)
    (hc : ¬ (t.expire_at + PERMITTED_DRIFT) % U64 < now) :
    ecdsa_verify impl sha3 keys now data ≠ Except.error ("token expired") := by
  rw [ecdsa_verify_eq impl sha3 keys now data t hdec, if_neg hc]
  by_cases hp : impl.parse_sig t.sig = true
  · rw [if_pos hp]
    by_cases htk : tryKeys (fun k => impl.verify_prehash k (tokenDigest sha3 t) t.sig) keys = true
    · rw [if_pos htk]; intro h; exact Except.noConfusion h
    · rw [if_neg htk]; intro h
      simp only [Except.error.injEq] at h
      exact absurd h (by decide)
  · rw [if_neg hp]; intro h
    simp only [Except.error.injEq] at h
    exact absurd h (by decide)

/- ---------- toy primitive instances (used only by witnesses) ---------- -/

/-- A toy 64-byte signature determined by the key and the message, standing
    in for the abstract external primitives in witness instantiations. -/
def toySig (k : Nat) (msg : List Nat) : List Nat :=
  List.replicate 64 ((k + msg.length) % 256)

def toyEd : Ed25519Impl where
  sign := toySig
  verify_strict := fun k msg sig => decide (sig = toySig k msg)

def toyEc : EcdsaImpl where
  sign_prehash := toySig
  parse_sig := fun sig => decide (sig.length = 64)
  verify_prehash := fun k digest sig => decide (sig = toySig k digest)

/-- A toy 32-byte digest function standing in for sha3_256. -/
def toySha3 (b : List Nat) : List Nat := List.replicate 32 (b.length % 256)

/- ---------- claims ---------- -/

/-- C1: for every expiry time, subject and signing key of either backend
    (Ed25519 or ECDSA/secp256k1), decoding the bytes produced by the
    corresponding sign function yields a Token whose first two fields equal
    the original (expire_at, subject), and verifying those bytes against the
    matching verification key returns that Token, provided
    expire_at + PERMITTED_DRIFT (computed in u64) is not below the
    verification-time clock. The external-primitive hypotheses state the
    signature length (64 bytes), parseability, and the correctness of the
    underlying signature scheme on this message. -/
theorem claim_C1_round_trip
    (impl : Ed25519Impl) (eimpl : EcdsaImpl) (sha3 : List Nat → List Nat)
    (sk vk esk evk : Nat) (e : Nat) (sub : List Nat) (now : Nat)
    (he : e < U64) (hsub : utf8Valid sub = true) (hsublen : sub.length < U64)
    (hnow : ¬ (e + PERMITTED_DRIFT) % U64 < now)
    (hedlen : (impl.sign sk (encode2 e sub)).length = 64)
    (hedok : impl.verify_strict vk (encode2 e sub) (impl.sign sk (encode2 e sub)) = true)
    (heclen : (eimpl.sign_prehash esk (sha3 (encode2 e sub))).length < U64)
    (hecparse : eimpl.parse_sig (eimpl.sign_prehash esk (sha3 (encode2 e sub))) = true)
    (hecok : eimpl.verify_prehash evk (sha3 (encode2 e sub))
      (eimpl.sign_prehash esk (sha3 (encode2 e sub))) = true) :
    (decodeToken (ed25519_sign impl sk e sub)
        = some ⟨e, sub, impl.sign sk (encode2 e sub)⟩
      ∧ ed25519_verify impl [vk] now (ed25519_sign impl sk e sub)
        = Except.ok ⟨e, sub, impl.sign sk (encode2 e sub)⟩)
    ∧ (decodeToken (ecdsa_sign eimpl sha3 esk e sub)
        = some ⟨e, sub, eimpl.sign_prehash esk (sha3 (encode2 e sub))⟩
      ∧ ecdsa_verify eimpl sha3 [evk] now (ecdsa_sign eimpl sha3 esk e sub)
        = Except.ok ⟨e, sub, eimpl.sign_prehash esk (sha3 (encode2 e sub))⟩) := by
  have hdec1 : decodeToken (ed25519_sign impl sk e sub)
      = some ⟨e, sub, impl.sign sk (encode2 e sub)⟩ :=
    decodeToken_encodeToken e sub _ he hsub hsublen (by rw [hedlen]; norm_num [U64])
  have hdec2 : decodeToken (ecdsa_sign eimpl sha3 esk e sub)
      = some ⟨e, sub, eimpl.sign_prehash esk (sha3 (encode2 e sub))⟩ :=
    decodeToken_encodeToken e sub _ he hsub hsublen heclen
  refine ⟨⟨hdec1, ?_⟩, ⟨hdec2, ?_⟩⟩
  · rw [ed25519_verify_eq impl [vk] now _ _ hdec1, if_neg hnow, if_pos hedlen,
      if_pos (by simp [tryKeys, hedok])]
  · rw [ecdsa_verify_eq eimpl sha3 [evk] now _ _ hdec2, if_neg hnow,
      if_pos hecparse, if_pos (by simp [tryKeys, tokenDigest, hecok])]

theorem claim_C1_round_trip_witness :
    ed25519_verify toyEd [5] 900 (ed25519_sign toyEd 5 1000 [97])
      = Except.ok ⟨1000, [97], toyEd.sign 5 (encode2 1000 [97])⟩
    ∧ ecdsa_verify toyEc toySha3 [7] 900 (ecdsa_sign toyEc toySha3 7 1000 [97])
      = Except.ok ⟨1000, [97], toyEc.sign_prehash 7 (toySha3 (encode2 1000 [97]))⟩ :=
  ⟨(claim_C1_round_trip toyEd toyEc toySha3 5 5 7 7 1000 [97] 900
      (by norm_num [U64]) (by decide) (by norm_num [U64]) (by decide)
      (by decide) (by decide) (by decide) (by decide)
      (by decide)).1.2,
   (claim_C1_round_trip toyEd toyEc toySha3 5 5 7 7 1000 [97] 900
      (by norm_num [U64]) (by decide) (by norm_num [U64]) (by decide)
      (by decide) (by decide) (by decide) (by decide)
      (by decide)).2.2⟩

/-- C2: for every decodable token and every key set, verification fails with
    the "token expired" error exactly when expire_at + PERMITTED_DRIFT
    (computed in u64, so reduced mod 2^64) is below now, for both backends,
    regardless of the signature bytes or keys (the expiry check precedes any
    signature parsing or verification); when the u64 sum does not wrap this
    condition is exactly expire_at + 10 < now; a token with
    expire_at = now - 11 fails with the expired error and a token with
    expire_at = now - 10 passes the expiry check. -/
theorem claim_C2_expiry
    (impl : Ed25519Impl) (eimpl : EcdsaImpl) (sha3 : List Nat → List Nat)
    (keys : List Nat) (now : Nat) (data : List Nat) (t : Token)
    (hdec : decodeToken data = some t) :
    (ed25519_verify impl keys now data = Except.error ("token expired")
      ↔ (t.expire_at + PERMITTED_DRIFT) % U64 < now)
    ∧ (ecdsa_verify eimpl sha3 keys now data = Except.error ("token expired")
      ↔ (t.expire_at + PERMITTED_DRIFT) % U64 < now)
    ∧ (t.expire_at + PERMITTED_DRIFT < U64 →
        (ed25519_verify impl keys now data = Except.error ("token expired")
          ↔ t.expire_at + PERMITTED_DRIFT < now))
    ∧ (11 ≤ now → t.expire_at = now - 11 →
        ed25519_verify impl keys now data = Except.error ("token expired")
        ∧ ecdsa_verify eimpl sha3 keys now data = Except.error ("token expired"))
    ∧ (now < U64 → t.expire_at = now - 10 →
        ed25519_verify impl keys now data ≠ Except.error ("token expired")
        ∧ ecdsa_verify eimpl sha3 keys now data ≠ Except.error ("token expired")) := by
  have hU : U64 = 18446744073709551616 := by norm_num [U64]
  have hD : PERMITTED_DRIFT = 10 := rfl
  have hiff1 : ed25519_verify impl keys now data = Except.error ("token expired")
      ↔ (t.expire_at + PERMITTED_DRIFT) % U64 < now := by
    by_cases hc : (t.expire_at + PERMITTED_DRIFT) % U64 < now
    · exact ⟨fun _ => hc,
        fun _ => by rw [ed25519_verify_eq impl keys now data t hdec, if_pos hc]⟩
    · exact ⟨fun h => absurd h (ed25519_verify_ne_expired impl keys now data t hdec hc),
        fun h => absurd h hc⟩
  have hiff2 : ecdsa_verify eimpl sha3 keys now data = Except.error ("token expired")
      ↔ (t.expire_at + PERMITTED_DRIFT) % U64 < now := by
    by_cases hc : (t.expire_at + PERMITTED_DRIFT) % U64 < now
    · exact ⟨fun _ => hc,
        fun _ => by rw [ecdsa_verify_eq eimpl sha3 keys now data t hdec, if_pos hc]⟩
    · exact ⟨fun h => absurd h (ecdsa_verify_ne_expired eimpl sha3 keys now data t hdec hc),
        fun h => absurd h hc⟩
  refine ⟨hiff1, hiff2, ?_, ?_, ?_⟩
  · intro hlt
    rw [hiff1, Nat.mod_eq_of_lt hlt]
  · intro h11 he
    have hc : (t.expire_at + PERMITTED_DRIFT) % U64 < now := by
      rw [he, hD, hU]; omega
    exact ⟨hiff1.mpr hc, hiff2.mpr hc⟩
  · intro hnow he
    have hc : ¬ (t.expire_at + PERMITTED_DRIFT) % U64 < now := by
      rw [he, hD, hU]; rw [hU] at hnow; omega
    exact ⟨ed25519_verify_ne_expired impl keys now data t hdec hc,
      ecdsa_verify_ne_expired eimpl sha3 keys now data t hdec hc⟩

theorem claim_C2_expiry_witness :
    ed25519_verify toyEd [] 100 (encodeToken 89 [97] []) = Except.error ("token expired")
    ∧ ed25519_verify toyEd [] 100 (encodeToken 90 [97] []) ≠ Except.error ("token expired") :=
  ⟨((claim_C2_expiry toyEd toyEc toySha3 [] 100 (encodeToken 89 [97] [])
      ⟨89, [97], []⟩ (by decide)).2.2.2.1 (by decide) (by decide)).1,
   ((claim_C2_expiry toyEd toyEc toySha3 [] 100 (encodeToken 90 [97] [])
      ⟨90, [97], []⟩ (by decide)).2.2.2.2 (by norm_num [U64]) (by decide)).1⟩

/-- C3: for every decodable, non-expired token whose signature bytes parse,
    and every ordered key list, verification succeeds (returning the decoded
    token) iff some key in the list validates the signature over the
    re-encoded (expire_at, agent) sub-payload (its sha3_256 digest for the
    ECDSA backend); if no key validates, it fails with the bad-signature
    error. tryKeys is the in-order loop returning at the first success, so
    in particular a two-key rotation set accepts tokens signed under either
    key and removing the only validating key turns the result into the
    bad-signature error. -/
theorem claim_C3_key_rotation
    (impl : Ed25519Impl) (eimpl : EcdsaImpl) (sha3 : List Nat → List Nat)
    (keys : List Nat) (now : Nat) (data : List Nat) (t : Token)
    (hdec : decodeToken data = some t)
    (hnotexp : ¬ (t.expire_at + PERMITTED_DRIFT) % U64 < now)
    (h64 : t.sig.length = 64)
    (hparse : eimpl.parse_sig t.sig = true) :
    (ed25519_verify impl keys now data = Except.ok t
      ↔ ∃ k ∈ keys, impl.verify_strict k (encode2 t.expire_at t.agent) t.sig = true)
    ∧ ((¬ ∃ k ∈ keys, impl.verify_strict k (encode2 t.expire_at t.agent) t.sig = true) →
        ed25519_verify impl keys now data
          = Except.error ("failed to verify Ed25519 signature"))
    ∧ (ecdsa_verify eimpl sha3 keys now data = Except.ok t
      ↔ ∃ k ∈ keys, eimpl.verify_prehash k (tokenDigest sha3 t) t.sig = true)
    ∧ ((¬ ∃ k ∈ keys, eimpl.verify_prehash k (tokenDigest sha3 t) t.sig = true) →
        ecdsa_verify eimpl sha3 keys now data
          = Except.error ("failed to verify ECDSA/Secp256k1 signature")) := by
  rw [ed25519_verify_eq impl keys now data t hdec,
    ecdsa_verify_eq eimpl sha3 keys now data t hdec, if_neg hnotexp, if_neg hnotexp,
    if_pos h64, if_pos hparse]
  constructor
  · by_cases htk : tryKeys (fun k => impl.verify_strict k (encode2 t.expire_at t.agent) t.sig) keys = true
    · rw [if_pos htk]
      exact ⟨fun _ => (tryKeys_eq_true_iff _ keys).mp htk, fun _ => rfl⟩
    · rw [if_neg htk]
      exact ⟨fun h => Except.noConfusion h,
        fun h => absurd ((tryKeys_eq_true_iff _ keys).mpr h) htk⟩
  constructor
  · intro hnot
    rw [if_neg (fun htk => absurd ((tryKeys_eq_true_iff _ keys).mp htk) hnot)]
  constructor
  · by_cases htk : tryKeys (fun k => eimpl.verify_prehash k (tokenDigest sha3 t) t.sig) keys = true
    · rw [if_pos htk]
      exact ⟨fun _ => (tryKeys_eq_true_iff _ keys).mp htk, fun _ => rfl⟩
    · rw [if_neg htk]
      exact ⟨fun h => Except.noConfusion h,
        fun h => absurd ((tryKeys_eq_true_iff _ keys).mpr h) htk⟩
  · intro hnot
    rw [if_neg (fun htk => absurd ((tryKeys_eq_true_iff _ keys).mp htk) hnot)]

theorem claim_C3_key_rotation_witness :
    ed25519_verify toyEd [9] 500
      (encodeToken 1000 [97] (toySig 5 (encode2 1000 [97])))
      = Except.error ("failed to verify Ed25519 signature")
    ∧ ed25519_verify toyEd [9, 5] 500
      (encodeToken 1000 [97] (toySig 5 (encode2 1000 [97])))
      = Except.ok ⟨1000, [97], toySig 5 (encode2 1000 [97])⟩ :=
  ⟨(claim_C3_key_rotation toyEd toyEc toySha3 [9] 500 _
      ⟨1000, [97], toySig 5 (encode2 1000 [97])⟩ (by decide) (by decide)
      (by decide) (by decide)).2.1 (by decide),
   (claim_C3_key_rotation toyEd toyEc toySha3 [9, 5] 500 _
      ⟨1000, [97], toySig 5 (encode2 1000 [97])⟩ (by decide) (by decide)
      (by decide) (by decide)).1.mpr ⟨5, by decide, by decide⟩⟩

/-- C7: the ECDSA/secp256k1 backend hands the external prehash signer
    exactly the 32-byte sha3_256 digest of the canonical CBOR encoding of
    (expire_at, subject) - never the raw encoded payload - and the verifier
    recomputes the digest of the decoded token's re-encoded pair, which is
    byte-identical to the digest given to the signer for the same
    (expire_at, subject). -/
theorem claim_C7_prehash
    (eimpl : EcdsaImpl) (sha3 : List Nat → List Nat) (key e : Nat) (sub : List Nat)
    (hsha : ∀ b, (sha3 b).length = 32)
    (he : e < U64) (hsub : utf8Valid sub = true) (hsublen : sub.length < U64)
    (hsiglen : (eimpl.sign_prehash key (sha3 (encode2 e sub))).length < U64) :
    ecdsa_sign eimpl sha3 key e sub
      = encodeToken e sub (eimpl.sign_prehash key (sha3 (encode2 e sub)))
    ∧ (sha3 (encode2 e sub)).length = 32
    ∧ decodeToken (ecdsa_sign eimpl sha3 key e sub)
      = some ⟨e, sub, eimpl.sign_prehash key (sha3 (encode2 e sub))⟩
    ∧ tokenDigest sha3 ⟨e, sub, eimpl.sign_prehash key (sha3 (encode2 e sub))⟩
      = sha3 (encode2 e sub) :=
  ⟨rfl, hsha _, decodeToken_encodeToken e sub _ he hsub hsublen hsiglen, rfl⟩

theorem claim_C7_prehash_witness :
    decodeToken (ecdsa_sign toyEc toySha3 7 1000 [97])
      = some ⟨1000, [97], toyEc.sign_prehash 7 (toySha3 (encode2 1000 [97]))⟩
    ∧ tokenDigest toySha3 ⟨1000, [97], toyEc.sign_prehash 7 (toySha3 (encode2 1000 [97]))⟩
      = toySha3 (encode2 1000 [97]) :=
  ⟨(claim_C7_prehash toyEc toySha3 7 1000 [97] (fun b => by simp [toySha3])
      (by decide) (by decide) (by decide) (by decide)).2.2.1,
   (claim_C7_prehash toyEc toySha3 7 1000 [97] (fun b => by simp [toySha3])
      (by decide) (by decide) (by decide) (by decide)).2.2.2⟩

/-- C9: on every input byte sequence the decode-and-verify functions are
    total: undecodable input (truncated, malformed or structurally invalid
    CBOR) yields exactly the decode error, and on any decodable token -
    including one whose expire_at is arbitrarily large, the u64 expiry sum
    being reduced mod 2^64 as in a release build, and whatever the length of
    the signature bytes - the result is the token or one of the three
    post-decode errors; the re-encoding step is total as well. -/
theorem claim_C9_totality
    (impl : Ed25519Impl) (eimpl : EcdsaImpl) (sha3 : List Nat → List Nat)
    (keys : List Nat) (now : Nat) (data : List Nat) :
    (decodeToken data = none →
      ed25519_verify impl keys now data = Except.error ("failed to decode CBOR data")
      ∧ ecdsa_verify eimpl sha3 keys now data = Except.error ("failed to decode CBOR data"))
    ∧ (∀ t, decodeToken data = some t →
      (ed25519_verify impl keys now data = Except.ok t
        ∨ ed25519_verify impl keys now data = Except.error ("token expired")
        ∨ ed25519_verify impl keys now data = Except.error ("failed to parse Ed25519 signature")
        ∨ ed25519_verify impl keys now data = Except.error ("failed to verify Ed25519 signature"))
      ∧ (ecdsa_verify eimpl sha3 keys now data = Except.ok t
        ∨ ecdsa_verify eimpl sha3 keys now data = Except.error ("token expired")
        ∨ ecdsa_verify eimpl sha3 keys now data = Except.error ("failed to parse Secp256k1 signature")
        ∨ ecdsa_verify eimpl sha3 keys now data = Except.error ("failed to verify ECDSA/Secp256k1 signature"))) := by
  constructor
  · intro h
    constructor
    · simp only [ed25519_verify, h]
    · simp only [ecdsa_verify, h]
  · intro t hdec
    constructor
    · rw [ed25519_verify_eq impl keys now data t hdec]
      by_cases hc : (t.expire_at + PERMITTED_DRIFT) % U64 < now
      · rw [if_pos hc]; exact Or.inr (Or.inl rfl)
      · rw [if_neg hc]
        by_cases h64 : t.sig.length = 64
        · rw [if_pos h64]
          by_cases htk : tryKeys (fun k => impl.verify_strict k (encode2 t.expire_at t.agent) t.sig) keys = true
          · rw [if_pos htk]; exact Or.inl rfl
          · rw [if_neg htk]; exact Or.inr (Or.inr (Or.inr rfl))
        · rw [if_neg h64]; exact Or.inr (Or.inr (Or.inl rfl))
    · rw [ecdsa_verify_eq eimpl sha3 keys now data t hdec]
      by_cases hc : (t.expire_at + PERMITTED_DRIFT) % U64 < now
      · rw [if_pos hc]; exact Or.inr (Or.inl rfl)
      · rw [if_neg hc]
        by_cases hp : eimpl.parse_sig t.sig = true
        · rw [if_pos hp]
          by_cases htk : tryKeys (fun k => eimpl.verify_prehash k (tokenDigest sha3 t) t.sig) keys = true
          · rw [if_pos htk]; exact Or.inl rfl
          · rw [if_neg htk]; exact Or.inr (Or.inr (Or.inr rfl))
        · rw [if_neg hp]; exact Or.inr (Or.inr (Or.inl rfl))

theorem claim_C9_totality_witness :
    (ed25519_verify toyEd [] 5 [131] = Except.error ("failed to decode CBOR data")
      ∧ ecdsa_verify toyEc toySha3 [] 5 [131] = Except.error ("failed to decode CBOR data"))
    ∧ (ed25519_verify toyEd [] 100 (encodeToken (U64 - 1) [97] [])
        = Except.ok ⟨U64 - 1, [97], []⟩
      ∨ ed25519_verify toyEd [] 100 (encodeToken (U64 - 1) [97] [])
        = Except.error ("token expired")
      ∨ ed25519_verify toyEd [] 100 (encodeToken (U64 - 1) [97] [])
        = Except.error ("failed to parse Ed25519 signature")
      ∨ ed25519_verify toyEd [] 100 (encodeToken (U64 - 1) [97] [])
        = Except.error ("failed to verify Ed25519 signature")) :=
  ⟨(claim_C9_totality toyEd toyEc toySha3 [] 5 [131]).1 (by decide),
   ((claim_C9_totality toyEd toyEc toySha3 [] 100 (encodeToken (U64 - 1) [97] [])).2
      ⟨U64 - 1, [97], []⟩ (by decide)).1⟩

theorem processAgents_fails (signer : String → Nat → String → Option String)
    (key : String) (exp : Nat) :
    ∀ (agents : List Agent) (memo : List (String × String)),
      (∀ n v, memoLookup n memo = some v → signer key exp n = some v) →
      (∃ a ∈ agents, signer key exp a.name = none) →
      processAgents signer key exp agents memo = none := by
  intro agents
  induction agents with
  | nil =>
    intro memo hinv hex
    obtain ⟨a, ha, -⟩ := hex
    simp at ha
  | cons a rest ih =>
    intro memo hinv hex
    cases hmem : memoLookup a.name memo with
    | some tok =>
      have hsig := hinv a.name tok hmem
      obtain ⟨b, hb, hbn⟩ := hex
      rcases List.mem_cons.mp hb with hb | hb
      · subst hb
        rw [hbn] at hsig
        simp at hsig
      · simp only [processAgents, hmem]
        rw [ih memo hinv ⟨b, hb, hbn⟩]
        rfl
    | none =>
      cases hsig : signer key exp a.name with
      | none => simp only [processAgents, hmem, hsig]
      | some tok =>
        obtain ⟨b, hb, hbn⟩ := hex
        rcases List.mem_cons.mp hb with hb | hb
        · subst hb
          rw [hbn] at hsig
          simp at hsig
        · simp only [processAgents, hmem, hsig]
          have hinv2 : ∀ n v, memoLookup n ((a.name, tok) :: memo) = some v →
              signer key exp n = some v := by
            intro n v hv
            simp only [memoLookup] at hv
            by_cases h : a.name = n
            · rw [if_pos h] at hv
              cases hv
              rw [← h]
              exact hsig
            · rw [if_neg h] at hv
              exact hinv n v hv
          rw [ih ((a.name, tok) :: memo) hinv2 ⟨b, hb, hbn⟩]
          rfl

/-- C4: a refresh pass over a non-empty roster performs exactly one signing
    call per distinct agent name, in first-occurrence order of the names,
    and after the pass any two roster entries that share a name carry
    identical proxy_token values. -/
theorem claim_C4_memoization
    (signer : String → Nat → String → Option String) (now_s : Nat)
    (key : String) (interval : Nat) (agents : List Agent) (st st2 : State)
    (calls : List SignCall) (hne : agents ≠ [])
    (hres : update_proxy_token signer now_s key interval agents st = some (st2, calls)) :
    calls.map (fun c => c.name) = firstOccs (agents.map (fun a => a.name))
    ∧ ∀ a ∈ st2.agents, ∀ b ∈ st2.agents, a.name = b.name →
        a.proxy_token = b.proxy_token := by
  have hie : agents.isEmpty = false := by
    cases agents with
    | nil => exact absurd rfl hne
    | cons a l => rfl
  rw [update_proxy_token, hie] at hres
  simp only [Bool.false_eq_true, if_false] at hres
  cases hp : processAgents signer key ((now_s + interval + 120) % U64) agents [] with
  | none => rw [hp] at hres; cases hres
  | some r =>
    rw [hp] at hres
    simp only [Option.some.injEq, Prod.mk.injEq] at hres
    obtain ⟨h1, h2⟩ := hres
    obtain ⟨hcalls, -, htoks, -, -⟩ :=
      processAgents_spec signer key ((now_s + interval + 120) % U64) agents [] []
        (by intro n; simp [memoLookup]) r hp
    subst h1
    subst h2
    refine ⟨hcalls, ?_⟩
    intro x hx y hy hxy
    obtain ⟨v, hv, hpv⟩ := htoks x hx
    obtain ⟨w, hw, hpw⟩ := htoks y hy
    rw [hxy] at hv
    rw [hv] at hw
    cases hw
    rw [hpv, hpw]

theorem claim_C4_memoization_witness :
    ([⟨("k"), 423, ("alice")⟩] : List SignCall).map (fun c => c.name)
      = firstOccs (([⟨("alice"), none⟩, ⟨("alice"), none⟩] : List Agent).map (fun a => a.name)) :=
  (claim_C4_memoization (fun _ _ n => some n) 3 ("k") 300
    [⟨("alice"), none⟩, ⟨("alice"), none⟩] ⟨("k"), 300, []⟩
    ⟨("k"), 300, [⟨("alice"), some ("alice")⟩, ⟨("alice"), some ("alice")⟩]⟩
    [⟨("k"), 423, ("alice")⟩] (by decide) (by decide)).1

/-- C6: if the signer fails for the name of any agent occurring in the
    roster, the whole refresh pass aborts (the canister call traps before
    the final state write, modelled by returning none), so the shared state
    is not updated at all, including for agents processed earlier in the
    same pass. -/
theorem claim_C6_abort
    (signer : String → Nat → String → Option String) (now_s : Nat)
    (key : String) (interval : Nat) (agents : List Agent) (st : State)
    (hex : ∃ a ∈ agents, signer key ((now_s + interval + 120) % U64) a.name = none) :
    update_proxy_token signer now_s key interval agents st = none := by
  obtain ⟨a, ha, han⟩ := hex
  have hie : agents.isEmpty = false := by
    cases agents with
    | nil => simp at ha
    | cons b l => rfl
  rw [update_proxy_token, hie]
  simp only [Bool.false_eq_true, if_false]
  rw [processAgents_fails signer key ((now_s + interval + 120) % U64) agents []
    (by intro n v hv; simp [memoLookup] at hv) ⟨a, ha, han⟩]

theorem claim_C6_abort_witness :
    update_proxy_token (fun _ _ _ => none) 0 ("k") 300 [⟨("bob"), none⟩]
      ⟨("k"), 300, [⟨("bob"), none⟩]⟩ = none :=
  claim_C6_abort (fun _ _ _ => none) 0 ("k") 300 [⟨("bob"), none⟩]
    ⟨("k"), 300, [⟨("bob"), none⟩]⟩ ⟨⟨("bob"), none⟩, by simp, rfl⟩

/-- C8: a refresh pass on an empty roster is a complete no-op: zero signing
    calls are made and the shared state is returned exactly as it was. -/
theorem claim_C8_empty_roster
    (signer : String → Nat → String → Option String) (now_s : Nat)
    (st : State) (h : st.agents = []) :
    refresh_proxy_token signer now_s st = some (st, []) := by
  rw [refresh_proxy_token, update_proxy_token, h]
  rfl

theorem claim_C8_empty_roster_witness :
    refresh_proxy_token (fun _ _ _ => none) 3 ⟨("k"), 300, []⟩
      = some (⟨("k"), 300, []⟩, []) :=
  claim_C8_empty_roster (fun _ _ _ => none) 3 ⟨("k"), 300, []⟩ rfl

/-- C10: a successful refresh pass changes only the agents field of the
    shared state - the signing-key name and the refresh interval are
    unchanged - and the published agent list has the same names in the same
    positions (hence the same length) as the input roster; proxy_token is
    the only per-agent field written. -/
theorem claim_C10_frame
    (signer : String → Nat → String → Option String) (now_s : Nat)
    (st st2 : State) (calls : List SignCall)
    (hres : refresh_proxy_token signer now_s st = some (st2, calls)) :
    st2.ecdsa_key_name = st.ecdsa_key_name
    ∧ st2.proxy_token_refresh_interval = st.proxy_token_refresh_interval
    ∧ st2.agents.map (fun a => a.name) = st.agents.map (fun a => a.name)
    ∧ st2.agents.length = st.agents.length := by
  rw [refresh_proxy_token, update_proxy_token] at hres
  by_cases hie : st.agents.isEmpty = true
  · rw [if_pos hie] at hres
    simp only [Option.some.injEq, Prod.mk.injEq] at hres
    obtain ⟨h1, h2⟩ := hres
    subst h1
    exact ⟨rfl, rfl, rfl, rfl⟩
  · rw [if_neg hie] at hres
    cases hp : processAgents signer st.ecdsa_key_name
        ((now_s + st.proxy_token_refresh_interval + 120) % U64) st.agents [] with
    | none => rw [hp] at hres; cases hres
    | some r =>
      rw [hp] at hres
      simp only [Option.some.injEq, Prod.mk.injEq] at hres
      obtain ⟨h1, h2⟩ := hres
      obtain ⟨-, -, -, hnames, -⟩ :=
        processAgents_spec signer st.ecdsa_key_name
          ((now_s + st.proxy_token_refresh_interval + 120) % U64) st.agents [] []
          (by intro n; simp [memoLookup]) r hp
      subst h1
      refine ⟨rfl, rfl, hnames, ?_⟩
      have hlen := congrArg List.length hnames
      simpa using hlen

theorem claim_C10_frame_witness :
    (⟨("k"), 300, [⟨("alice"), some ("alice")⟩]⟩ : State).ecdsa_key_name
      = (⟨("k"), 300, [⟨("alice"), none⟩]⟩ : State).ecdsa_key_name
    ∧ (⟨("k"), 300, [⟨("alice"), some ("alice")⟩]⟩ : State).agents.map (fun a => a.name)
      = (⟨("k"), 300, [⟨("alice"), none⟩]⟩ : State).agents.map (fun a => a.name) :=
  ⟨(claim_C10_frame (fun _ _ n => some n) 3 ⟨("k"), 300, [⟨("alice"), none⟩]⟩
      ⟨("k"), 300, [⟨("alice"), some ("alice")⟩]⟩
      [⟨("k"), 423, ("alice")⟩] (by decide)).1,
   (claim_C10_frame (fun _ _ n => some n) 3 ⟨("k"), 300, [⟨("alice"), none⟩]⟩
      ⟨("k"), 300, [⟨("alice"), some ("alice")⟩]⟩
      [⟨("k"), 423, ("alice")⟩] (by decide)).2.2.1⟩

/-- C5: every signing call of a refresh pass uses
    expires_at = now_s + refresh_interval + 120 (u64 arithmetic, equal to
    the plain sum whenever it does not wrap) and a subject drawn from the
    roster's agent names, and a successful pass over a non-empty roster
    leaves proxy_token set on every entry; for the roster [alice, bob,
    alice] with interval 300 at time T the pass makes exactly two signing
    calls (alice then bob), each with expires_at = T + 300 + 120, and
    publishes tokens on all three entries with entries 1 and 3 identical. -/
theorem claim_C5_signing_args :
    (∀ (signer : String → Nat → String → Option String) (now_s : Nat)
        (key : String) (interval : Nat) (agents : List Agent) (st st2 : State)
        (calls : List SignCall),
      update_proxy_token signer now_s key interval agents st = some (st2, calls) →
      (∀ c ∈ calls, c.keyName = key ∧ c.expireAt = (now_s + interval + 120) % U64
        ∧ c.name ∈ agents.map (fun a => a.name))
      ∧ (now_s + interval + 120 < U64 →
          ∀ c ∈ calls, c.expireAt = now_s + interval + 120)
      ∧ (agents ≠ [] → ∀ a ∈ st2.agents, a.proxy_token.isSome = true))
    ∧ (∀ (signer : String → Nat → String → Option String) (now_s : Nat)
        (key : String) (st st2 : State) (calls : List SignCall) (tA tB : String),
      signer key ((now_s + 300 + 120) % U64) ("alice") = some tA →
      signer key ((now_s + 300 + 120) % U64) ("bob") = some tB →
      update_proxy_token signer now_s key 300
        [⟨("alice"), none⟩, ⟨("bob"), none⟩, ⟨("alice"), none⟩] st
        = some (st2, calls) →
      calls = [⟨key, (now_s + 300 + 120) % U64, ("alice")⟩,
               ⟨key, (now_s + 300 + 120) % U64, ("bob")⟩]
      ∧ st2.agents
        = [⟨("alice"), some tA⟩, ⟨("bob"), some tB⟩, ⟨("alice"), some tA⟩]) := by
  constructor
  · intro signer now_s key interval agents st st2 calls hres
    cases agents with
    | nil =>
      rw [update_proxy_token] at hres
      simp only [List.isEmpty_nil, if_true] at hres
      simp only [Option.some.injEq, Prod.mk.injEq] at hres
      obtain ⟨h1, h2⟩ := hres
      subst h1
      subst h2
      refine ⟨?_, ?_, ?_⟩
      · intro c hc; simp at hc
      · intro _ c hc; simp at hc
      · intro hne; exact absurd rfl hne
    | cons a rest =>
      rw [update_proxy_token] at hres
      simp only [List.isEmpty_cons, Bool.false_eq_true, if_false] at hres
      cases hp : processAgents signer key ((now_s + interval + 120) % U64) (a :: rest) [] with
      | none => rw [hp] at hres; cases hres
      | some r =>
        rw [hp] at hres
        simp only [Option.some.injEq, Prod.mk.injEq] at hres
        obtain ⟨h1, h2⟩ := hres
        obtain ⟨-, -, htoks, -, hcprops⟩ :=
          processAgents_spec signer key ((now_s + interval + 120) % U64) (a :: rest) [] []
            (by intro n; simp [memoLookup]) r hp
        subst h1
        subst h2
        refine ⟨hcprops, ?_, ?_⟩
        · intro hlt c hc
          rw [(hcprops c hc).2.1, Nat.mod_eq_of_lt hlt]
        · intro _ x hx
          obtain ⟨v, -, hpv⟩ := htoks x hx
          rw [hpv]
          rfl
  · intro signer now_s key st st2 calls tA tB hA hB hres
    have h1 : processAgents signer key ((now_s + 300 + 120) % U64)
        [⟨("alice"), none⟩, ⟨("bob"), none⟩, ⟨("alice"), none⟩] []
        = some ([⟨("alice"), some tA⟩, ⟨("bob"), some tB⟩, ⟨("alice"), some tA⟩],
                [(("bob"), tB), (("alice"), tA)],
                [⟨key, (now_s + 300 + 120) % U64, ("alice")⟩,
                 ⟨key, (now_s + 300 + 120) % U64, ("bob")⟩]) := by
      simp [processAgents, memoLookup, hA, hB, Option.map_some']
    rw [update_proxy_token] at hres
    simp only [List.isEmpty_cons, Bool.false_eq_true, if_false, h1] at hres
    simp only [Option.some.injEq, Prod.mk.injEq] at hres
    obtain ⟨hst, hcalls⟩ := hres
    subst hst
    subst hcalls
    exact ⟨rfl, rfl⟩

theorem claim_C5_signing_args_witness :
    ([⟨("k"), 423 % U64, ("alice")⟩, ⟨("k"), 423 % U64, ("bob")⟩] : List SignCall)
      = [⟨("k"), (3 + 300 + 120) % U64, ("alice")⟩,
         ⟨("k"), (3 + 300 + 120) % U64, ("bob")⟩]
    ∧ (⟨("k"), 300, [⟨("alice"), some ("alice")⟩, ⟨("bob"), some ("bob")⟩,
        ⟨("alice"), some ("alice")⟩]⟩ : State).agents
      = [⟨("alice"), some ("alice")⟩, ⟨("bob"), some ("bob")⟩,
         ⟨("alice"), some ("alice")⟩] :=
  claim_C5_signing_args.2 (fun _ _ n => some n) 3 ("k") ⟨("k"), 300, []⟩
    ⟨("k"), 300, [⟨("alice"), some ("alice")⟩, ⟨("bob"), some ("bob")⟩,
      ⟨("alice"), some ("alice")⟩]⟩
    [⟨("k"), 423 % U64, ("alice")⟩, ⟨("k"), 423 % U64, ("bob")⟩]
    ("alice") ("bob") rfl rfl (by decide)
